import Mathlib

/-!
Verification of the wlog logging library (github.com/vargspjut/wlog).

The definitions below are a shallow embedding of the Go sources:
`wlog.go` (core logger, write pipeline, mutators), `formatter.go`
(text and JSON formatters) and the current `scopedLogger` file.

Modelling conventions:
- Go maps (`Fields`, `FieldMapping`) are association lists with unique
  keys; `mapSet` models the Go assignment `m[k] = v` (replace-or-add;
  Go iteration order is unspecified, so any order-preserving
  representative is faithful), `findVal` models map lookup.
- Field values (Go `interface` values) are carried as their rendered
  textual form (the result of the `%v` rendering), which is all the
  formatters ever do with them.
- `io.Writer` sinks are byte buffers; a per-chunk failure oracle
  `wfail` models a sink whose writes may fail, as `writeString` in
  `formatter.go` must swallow such failures.
- Variadic message construction (`fmt.Sprint` / `fmt.Sprintf`) is
  abstracted to the resulting message string; every claim quantifies
  over that string.
- `time.Time` is the `Timestamp` record of the calendar components the
  formatters read (`Date`, `Clock`, `Nanosecond`).
-/

namespace Wlog

/-- Log levels from `wlog.go`: `Dbg LogLevel = iota; Nfo; Wrn; Err; Ftl`. -/
inductive LogLevel where
  | Dbg
  | Nfo
  | Wrn
  | Err
  | Ftl
deriving DecidableEq, Repr

/-- The underlying integer of a `LogLevel` (`type LogLevel int`, iota order). -/
def LogLevel.toNat : LogLevel → Nat
  | .Dbg => 0
  | .Nfo => 1
  | .Wrn => 2
  | .Err => 3
  | .Ftl => 4

/-- The long string form from `LogLevel.String()` in `wlog.go`. -/
def LogLevel.toStr : LogLevel → String
  | .Dbg => "Debug"
  | .Nfo => "Info"
  | .Wrn => "Warning"
  | .Err => "Error"
  | .Ftl => "Fatal"

/-- The 3-letter code written by `TextFormatter.Format` (trailing space included). -/
def levelCode : LogLevel → String
  | .Dbg => "DBG "
  | .Nfo => "NFO "
  | .Wrn => "WRN "
  | .Err => "ERR "
  | .Ftl => "FTL "

/-- Calendar components of a `time.Time` as read by `getTimestamp` in
`formatter.go` (`Date()`, `Clock()`, `Nanosecond()`). -/
structure Timestamp where
  year : Nat
  month : Nat
  day : Nat
  hour : Nat
  minute : Nat
  sec : Nat
  nanosec : Nat
deriving DecidableEq, Repr

section AssocMap

variable {α : Type}

/-- Go map lookup `v, ok := m[k]` on the association-list representation. -/
def findVal : List (String × α) → String → Option α
  | [], _ => none
  | p :: rest, key => if p.1 = key then some p.2 else findVal rest key

/-- Go map assignment `m[k] = v`: any existing binding of `k` is replaced. -/
def mapSet (m : List (String × α)) (k : String) (v : α) : List (String × α) :=
  m.filter (fun p => p.1 != k) ++ [(k, v)]

/-- The Go merge idiom: for every pair k, v of src, run the assignment
`dst[k] = v` (a range-loop copy of src into dst). -/
def mergeInto (dst src : List (String × α)) : List (String × α) :=
  src.foldl (fun d p => mapSet d p.1 p.2) dst

/-- A well-formed Go map: every key is bound at most once. -/
abbrev KeysNodup (m : List (String × α)) : Prop :=
  (m.map Prod.fst).Nodup

/-- First-defined-wins combination of two lookups. -/
def orFirst (a b : Option α) : Option α :=
  match a with
  | some v => some v
  | none => b

theorem findVal_append (l₁ l₂ : List (String × α)) (k : String) :
    findVal (l₁ ++ l₂) k = orFirst (findVal l₁ k) (findVal l₂ k) := by
  induction l₁ with
  | nil => simp [findVal, orFirst]
  | cons p rest ih =>
      by_cases h : p.1 = k <;> simp [findVal, h, ih, orFirst]

theorem findVal_filter_ne_self (m : List (String × α)) (k : String) :
    findVal (m.filter (fun p => p.1 != k)) k = none := by
  induction m with
  | nil => simp [findVal]
  | cons p rest ih =>
      by_cases h : p.1 = k
      · simp [List.filter_cons, h, ih]
      · simp [List.filter_cons, h, findVal, ih]

theorem findVal_filter_ne (m : List (String × α)) (k k' : String) (h : k' ≠ k) :
    findVal (m.filter (fun p => p.1 != k)) k' = findVal m k' := by
  induction m with
  | nil => simp
  | cons p rest ih =>
      have hkk : ¬k = k' := fun e => h e.symm
      by_cases hp : p.1 = k
      · simp [List.filter_cons, hp, findVal, hkk, ih]
      · by_cases hp' : p.1 = k'
        · simp [List.filter_cons, hp, findVal, hp', h]
        · simp [List.filter_cons, hp, findVal, hp', ih]

theorem findVal_mapSet_self (m : List (String × α)) (k : String) (v : α) :
    findVal (mapSet m k v) k = some v := by
  rw [mapSet, findVal_append, findVal_filter_ne_self]
  simp [findVal, orFirst]

theorem findVal_mapSet_ne (m : List (String × α)) (k k' : String) (v : α) (h : k' ≠ k) :
    findVal (mapSet m k v) k' = findVal m k' := by
  rw [mapSet, findVal_append, findVal_filter_ne m k k' h]
  have hkk : ¬k = k' := fun e => h e.symm
  cases hf : findVal m k' <;> simp [orFirst, findVal, hkk, hf]

theorem findVal_eq_none_of_not_mem (m : List (String × α)) (k : String)
    (h : k ∉ m.map Prod.fst) : findVal m k = none := by
  induction m with
  | nil => simp [findVal]
  | cons p rest ih =>
      simp only [List.map_cons, List.mem_cons] at h
      push_neg at h
      have hpk : ¬p.1 = k := fun e => h.1 e.symm
      simp [findVal, hpk, ih h.2]

theorem findVal_mergeInto (dst src : List (String × α)) (k : String)
    (h : KeysNodup src) :
    findVal (mergeInto dst src) k = orFirst (findVal src k) (findVal dst k) := by
  induction src generalizing dst with
  | nil => simp [mergeInto, findVal, orFirst]
  | cons p rest ih =>
      have hcons : p.1 ∉ rest.map Prod.fst ∧ (rest.map Prod.fst).Nodup := by
        have := h
        simp only [KeysNodup, List.map_cons, List.nodup_cons] at this
        exact this
      show findVal (mergeInto (mapSet dst p.1 p.2) rest) k = _
      rw [ih (mapSet dst p.1 p.2) hcons.2]
      by_cases hk : k = p.1
      · have hrest : findVal rest k = none := by
          rw [hk]; exact findVal_eq_none_of_not_mem rest p.1 hcons.1
        have hset : findVal (mapSet dst p.1 p.2) k = some p.2 := by
          rw [hk]; exact findVal_mapSet_self dst p.1 p.2
        rw [hrest, hset]
        simp [findVal, orFirst, hk.symm]
      · rw [findVal_mapSet_ne dst p.1 k p.2 hk]
        have hpk : ¬p.1 = k := fun e => hk e.symm
        simp [findVal, hpk]

theorem keysNodup_mapSet (m : List (String × α)) (k : String) (v : α)
    (h : KeysNodup m) : KeysNodup (mapSet m k v) := by
  unfold KeysNodup mapSet
  rw [List.map_append, List.nodup_append]
  have hs : (List.filter (fun p => p.1 != k) m).Sublist m := List.filter_sublist m
  refine ⟨h.sublist (hs.map Prod.fst), by simp, ?_⟩
  intro x hx hx2
  simp only [List.mem_map, List.mem_filter] at hx
  obtain ⟨p, ⟨hpm, hne⟩, hpx⟩ := hx
  simp only [List.map_cons, List.map_nil, List.mem_singleton] at hx2
  rw [hx2] at hpx
  exact absurd hpx (by simpa using hne)

theorem keysNodup_mergeInto (dst src : List (String × α)) (h : KeysNodup dst) :
    KeysNodup (mergeInto dst src) := by
  induction src generalizing dst with
  | nil => exact h
  | cons p rest ih =>
      exact ih (mapSet dst p.1 p.2) (keysNodup_mapSet dst p.1 p.2 h)

end AssocMap

/-- The digit loop of `itoa` in `formatter.go`: decimal digits of `i` assembled
in reverse order while `i >= 10 || wid > 1`, then the final digit. The result
is the decimal form of `i` zero-padded on the left to at least `wid` characters. -/
def itoaChars (i wid : Nat) : List Char :=
  if h : 10 ≤ i ∨ 1 < wid then
    itoaChars (i / 10) (wid - 1) ++ [Char.ofNat (48 + i % 10)]
  else
    [Char.ofNat (48 + i)]
termination_by i + wid
decreasing_by
  rcases h with h | h
  · have hdlt : i / 10 < i := Nat.div_lt_self (by omega) (by omega)
    omega
  · have hdle : i / 10 ≤ i := Nat.div_le_self i 10
    omega

/-- `itoa` from `formatter.go` (writing into a buffer is modelled by returning
the written characters as a string). -/
def itoa (i wid : Nat) : String :=
  String.mk (itoaChars i wid)

/-- Specification-side plain decimal digits of a natural number, most
significant digit first. -/
def decDigits (i : Nat) : List Char :=
  if h : i < 10 then [Char.ofNat (48 + i)]
  else decDigits (i / 10) ++ [Char.ofNat (48 + i % 10)]
termination_by i
decreasing_by
  exact Nat.div_lt_self (by omega) (by omega)

/-- Specification-side zero padding: the decimal form of `i`, left-padded with
the character 0 to at least `wid` characters. -/
def zeroPadChars (i wid : Nat) : List Char :=
  List.replicate (wid - (decDigits i).length) '0' ++ decDigits i

/-- String form of `zeroPadChars`. -/
def zeroPad (i wid : Nat) : String :=
  String.mk (zeroPadChars i wid)

theorem decDigits_length_pos (i : Nat) : 0 < (decDigits i).length := by
  rw [decDigits]
  by_cases h : i < 10 <;> simp [h]

theorem itoaChars_eq_zeroPadChars (i wid : Nat) : itoaChars i wid = zeroPadChars i wid := by
  induction i, wid using itoaChars.induct with
  | case1 i wid h ih =>
      rw [itoaChars, dif_pos h, ih]
      by_cases hi : i < 10
      · have hi0 : i / 10 = 0 := Nat.div_eq_of_lt hi
        have him : i % 10 = i := Nat.mod_eq_of_lt hi
        have hd0 : decDigits 0 = ['0'] := by rw [decDigits]; norm_num
        have hdi : decDigits i = [Char.ofNat (48 + i)] := by rw [decDigits]; simp [hi]
        rw [zeroPadChars, zeroPadChars, hi0, hd0, him, hdi]
        simp only [List.length_cons, List.length_nil, Nat.zero_add]
        have hrep : List.replicate (wid - 1 - 1) '0' ++ ['0'] = List.replicate (wid - 1) '0' := by
          conv_rhs => rw [show wid - 1 = wid - 1 - 1 + 1 from by omega]
          rw [List.replicate_succ']
        rw [hrep]
      · have hdi : decDigits i = decDigits (i / 10) ++ [Char.ofNat (48 + i % 10)] := by
          rw [decDigits]; simp [hi]
        rw [zeroPadChars, zeroPadChars, hdi]
        simp only [List.length_append, List.length_cons, List.length_nil, Nat.zero_add]
        have hlen : wid - 1 - (decDigits (i / 10)).length
            = wid - ((decDigits (i / 10)).length + 1) := by omega
        rw [hlen, List.append_assoc]
  | case2 i wid h =>
      push_neg at h
      have hdi : decDigits i = [Char.ofNat (48 + i)] := by rw [decDigits]; simp [h.1]
      rw [itoaChars, dif_neg (by push_neg; exact h), zeroPadChars, hdi]
      simp only [List.length_cons, List.length_nil, Nat.zero_add]
      have hw1 : wid - 1 = 0 := by omega
      rw [hw1]
      simp

theorem decDigits_length_le (k : Nat) : ∀ i : Nat, i < 10 ^ (k + 1) → (decDigits i).length ≤ k + 1 := by
  induction k with
  | zero =>
      intro i hi
      have h10 : i < 10 := by simpa using hi
      rw [decDigits, dif_pos h10]
      simp
  | succ k ih =>
      intro i hi
      by_cases h : i < 10
      · rw [decDigits, dif_pos h]
        simp
      · have hq : i / 10 < 10 ^ (k + 1) := by
          rw [Nat.div_lt_iff_lt_mul (by omega)]
          calc i < 10 ^ (k + 2) := hi
            _ = 10 ^ (k + 1) * 10 := by ring
        have hlen := ih (i / 10) hq
        rw [decDigits, dif_neg (by omega)]
        simp only [List.length_append, List.length_cons, List.length_nil]
        omega

theorem zeroPadChars_length (i wid : Nat) (h1 : 1 ≤ wid) (h2 : i < 10 ^ wid) :
    (zeroPadChars i wid).length = wid := by
  have hle : (decDigits i).length ≤ wid := by
    have he : wid - 1 + 1 = wid := by omega
    have := decDigits_length_le (wid - 1) i (by rw [he]; exact h2)
    omega
  rw [zeroPadChars]
  simp only [List.length_append, List.length_replicate]
  omega

theorem zeroPad_length (i wid : Nat) (h1 : 1 ≤ wid) (h2 : i < 10 ^ wid) :
    (zeroPad i wid).length = wid := by
  rw [zeroPad]
  show (String.mk (zeroPadChars i wid)).data.length = wid
  exact zeroPadChars_length i wid h1 h2

theorem itoa_eq_zeroPad (i wid : Nat) : itoa i wid = zeroPad i wid := by
  rw [itoa, zeroPad, itoaChars_eq_zeroPadChars]

/-- `getTimestamp` from `formatter.go`: date, a space, clock time, with the
microseconds (`Nanosecond() / 1e3`) as the last component. -/
def getTimestamp (t : Timestamp) : String :=
  itoa t.year 4 ++ "-" ++ itoa t.month 2 ++ "-" ++ itoa t.day 2 ++ " "
    ++ itoa t.hour 2 ++ ":" ++ itoa t.minute 2 ++ ":" ++ itoa t.sec 2 ++ ":"
    ++ itoa (t.nanosec / 1000) 6

/-- Rendered field value: how a Go `interface` value shows up after the `%v`
formatting (`fmt.Sprintf`) or JSON serialization the formatters apply. -/
abbrev Val := String

/-- `Fields` from `wlog.go` (map from field name to value). -/
abbrev Fields := List (String × Val)

/-- `FieldMapping` from `wlog.go` (map from field name to short output name). -/
abbrev FieldMapping := List (String × String)

/-- State of an output sink during formatting: the bytes successfully written
so far and the diagnostics printed to the standard error stream. -/
structure WriteState where
  buf : String
  errs : List String
deriving DecidableEq, Repr

/-- `writeString` from `formatter.go`: attempt the write; when the underlying
sink fails (`wfail` says which chunks fail) the error is printed to the error
stream and formatting continues; the error is never propagated. -/
def writeString (wfail : String → Bool) (st : WriteState) (s : String) : WriteState :=
  if wfail s then { st with errs := st.errs ++ ["could not write entry log, err"] }
  else { st with buf := st.buf ++ s }

/-- The loop body of `writeFields` in `formatter.go`: `count` is the total
number of fields, `idx` the one-based position after the increment; a comma
separator is written after every entry except the last. -/
def writeFieldsAux (wfail : String → Bool) (count : Nat) :
    Nat → WriteState → List (String × Val) → WriteState
  | _, st, [] => st
  | idx, st, p :: rest =>
      let idx' := idx + 1
      let st := writeString wfail st p.1
      let st := writeString wfail st ": "
      let st := writeString wfail st p.2
      let st := if idx' < count then writeString wfail st ", " else st
      writeFieldsAux wfail count idx' st rest

/-- `writeFields` from `formatter.go`. -/
def writeFields (wfail : String → Bool) (st : WriteState) (fields : Fields) : WriteState :=
  writeFieldsAux wfail fields.length 0 st fields

/-- `TextFormatter.Format` from `formatter.go`, threading the sink state
through every `writeString` call; the function body has a single return
statement, `return nil`, modelled by the `none` error component. -/
def TextFormatter.format (wfail : String → Bool) (logLevel : LogLevel) (msg : String)
    (timestamp : Timestamp) (fields : Fields) : WriteState × Option String :=
  let st : WriteState := ⟨"", []⟩
  let st := writeString wfail st (getTimestamp timestamp)
  let st := writeString wfail st " "
  let st := writeString wfail st (levelCode logLevel)
  let st := writeString wfail st msg
  let st :=
    if 0 < fields.length then
      let st := writeString wfail st " ["
      let st := writeFields wfail st fields
      writeString wfail st "]"
    else st
  let st :=
    if msg.data = [] ∨ msg.data.getLast? ≠ some '\n' then writeString wfail st "\n"
    else st
  (st, none)

/-- The text entry actually produced through a non-failing sink (the write
pipeline in `wlog.go` formats into a `bytes.Buffer`, whose writes always
succeed). -/
def textFormat (logLevel : LogLevel) (msg : String) (timestamp : Timestamp)
    (fields : Fields) : String :=
  (TextFormatter.format (fun _ => false) logLevel msg timestamp fields).1.buf

/-- Specification-side separator join (the claim reads: entries joined by a
comma and a space). -/
def joinSep (sep : String) : List String → String
  | [] => ""
  | [s] => s
  | s :: r :: rest => s ++ sep ++ joinSep sep (r :: rest)

theorem writeString_ok (st : WriteState) (s : String) :
    writeString (fun _ => false) st s = { st with buf := st.buf ++ s } := by
  simp [writeString]

theorem writeFieldsAux_ok (count : Nat) (rest : List (String × Val)) :
    ∀ (idx : Nat) (st : WriteState), idx + rest.length = count →
      writeFieldsAux (fun _ => false) count idx st rest
        = { st with buf := st.buf ++ joinSep ", " (rest.map (fun p => p.1 ++ ": " ++ p.2)) } := by
  induction rest with
  | nil =>
      intro idx st _
      simp [writeFieldsAux, joinSep, String.append_empty]
  | cons p rest ih =>
      intro idx st hc
      cases rest with
      | nil =>
          have hlt : ¬idx + 1 < count := by
            simp only [List.length_cons, List.length_nil] at hc
            omega
          simp [writeFieldsAux, writeString_ok, hlt, joinSep, String.append_assoc]
      | cons r rs =>
          have hlt : idx + 1 < count := by
            simp only [List.length_cons] at hc
            omega
          rw [writeFieldsAux]
          simp only [writeString_ok, hlt, if_pos]
          rw [ih (idx + 1) ⟨st.buf ++ p.1 ++ ": " ++ p.2 ++ ", ", st.errs⟩
            (by simp only [List.length_cons] at hc ⊢; omega)]
          simp [joinSep, String.append_assoc]

theorem writeFields_ok (st : WriteState) (fields : Fields) :
    writeFields (fun _ => false) st fields
      = { st with buf := st.buf ++ joinSep ", " (fields.map (fun p => p.1 ++ ": " ++ p.2)) } :=
  writeFieldsAux_ok fields.length fields 0 st (by omega)

/-- Structure of the text entry: timestamp, space, level code, message, the
bracketed field list when fields are present, and the conditional newline. -/
theorem textFormat_eq (logLevel : LogLevel) (msg : String) (timestamp : Timestamp)
    (fields : Fields) :
    textFormat logLevel msg timestamp fields
      = getTimestamp timestamp ++ " " ++ levelCode logLevel ++ msg
        ++ (if 0 < fields.length then
              " [" ++ joinSep ", " (fields.map (fun p => p.1 ++ ": " ++ p.2)) ++ "]"
            else "")
        ++ (if msg.data = [] ∨ msg.data.getLast? ≠ some '\n' then "\n" else "") := by
  unfold textFormat TextFormatter.format
  by_cases hf : 0 < fields.length
  · by_cases hnl : msg.data = [] ∨ msg.data.getLast? ≠ some '\n'
    · simp [hf, hnl, writeString_ok, writeFields_ok, String.append_assoc, String.empty_append]
    · simp [hf, hnl, writeString_ok, writeFields_ok, String.append_assoc, String.empty_append,
        String.append_empty]
  · by_cases hnl : msg.data = [] ∨ msg.data.getLast? ≠ some '\n'
    · simp [hf, hnl, writeString_ok, String.append_assoc, String.empty_append,
        String.append_empty]
    · simp [hf, hnl, writeString_ok, String.append_assoc, String.empty_append,
        String.append_empty]

/-- `JSONFormatter.getKey` from `formatter.go`. In compact mode a non-custom
(built-in) key is renamed to the at-sign followed by its first character
(`key[:1]`); a custom key is looked up in the field mapping and falls back to
itself; outside compact mode every key is returned unchanged. -/
def JSONFormatter.getKey (compact : Bool) (key : String) (fieldMapping : FieldMapping)
    (isCustomField : Bool) : String :=
  if compact then
    if !isCustomField then "@" ++ String.mk (key.data.take 1)
    else
      match findVal fieldMapping key with
      | some mappedKey => mappedKey
      | none => key
  else key

/-- The output object assembled by `JSONFormatter.Format`: the three standard
entries first (a Go map literal), then every custom field assigned on top via
the map-assignment idiom. -/
def jsonOut (compact : Bool) (logLevel : LogLevel) (msg : String) (timestamp : Timestamp)
    (fields : Fields) (fieldMapping : FieldMapping) : Fields :=
  let out : Fields :=
    mapSet (mapSet (mapSet []
      (JSONFormatter.getKey compact "message" fieldMapping false) msg)
      (JSONFormatter.getKey compact "timestamp" fieldMapping false) (getTimestamp timestamp))
      (JSONFormatter.getKey compact "level" fieldMapping false) logLevel.toStr
  fields.foldl (fun o p => mapSet o (JSONFormatter.getKey compact p.1 fieldMapping true) p.2) out

/-- Byte rendering of the JSON object plus the newline appended by
`json.Encoder.Encode`. This is an abstraction of the Go encoder (which also
escapes strings and orders keys); no claim below depends on the byte-level
JSON text, only on the key/value structure of `jsonOut`. -/
def jsonEncode (out : Fields) : String :=
  "\x7b" ++ joinSep "," (out.map (fun p => "\"" ++ p.1 ++ "\":\"" ++ p.2 ++ "\"")) ++ "\x7d" ++ "\n"

/-- The two formatter implementations shipped with the library
(`TextFormatter` and `JSONFormatter` with its `Compact` flag). -/
inductive Formatter where
  | text
  | json (compact : Bool)
deriving DecidableEq, Repr

/-- Dispatch of the `Formatter.Format` interface method: the rendered bytes
and the returned error. Both implementations end in `return nil` (the JSON
encoder error is impossible for the value forms modelled here), so the error
component is `none`. -/
def Formatter.format : Formatter → LogLevel → String → Timestamp → Fields → FieldMapping →
    String × Option String
  | .text, logLevel, msg, timestamp, fields, _ =>
      ((TextFormatter.format (fun _ => false) logLevel msg timestamp fields).1.buf,
        (TextFormatter.format (fun _ => false) logLevel msg timestamp fields).2)
  | .json compact, logLevel, msg, timestamp, fields, fieldMapping =>
      (jsonEncode (jsonOut compact logLevel msg timestamp fields fieldMapping), none)

/-- Hook callbacks are identified by an id; the callback body is outside the
model (the pipeline records the exact argument tuple each hook receives). -/
abbrev HookId := Nat

/-- The `logger` struct from `wlog.go`. The writer sink is modelled by a flag
(present or nil); the mutex only serializes access and has no observable
effect on the sequential semantics modelled here. -/
structure Logger where
  writer : Bool
  logLevel : LogLevel
  stdOut : Bool
  hooks : LogLevel → List HookId
  fields : Fields
  formatter : Formatter
  fieldMapping : FieldMapping

/-- `newLogger` from `wlog.go`: text formatter, empty fields, and the default
field mapping for the three standard keys. -/
def newLogger (writer : Bool) (logLevel : LogLevel) (stdOut : Bool) : Logger :=
  { writer := writer
    logLevel := logLevel
    stdOut := stdOut
    hooks := fun _ => []
    fields := []
    formatter := .text
    fieldMapping := [("level", "@l"), ("timestamp", "@t"), ("message", "@m")] }

/-- Observable effects of one pass through the write pipeline. -/
structure EmitResult where
  buffer : String
  formatDiag : List String
  writerOut : Option String
  stdoutOut : Option String
  stderrOut : Option String
  hookCalls : List (HookId × Timestamp × LogLevel × String)
deriving DecidableEq, Repr

/-- `writeWithFields` from `wlog.go`: format into the buffer (reporting a
formatter error to the error stream without aborting), write the buffer to the
writer sink when one is set, route the buffer to standard output (standard
error for levels above Warning) when enabled, then call the hooks installed
for exactly this level, in order, with the timestamp, the level and the raw
message. There is no check of the configured log level in this function. -/
def writeWithFields (l : Logger) (logLevel : LogLevel) (msg : String) (fields : Fields)
    (fieldMapping : FieldMapping) (now : Timestamp) : EmitResult :=
  let fr := l.formatter.format logLevel msg now fields fieldMapping
  { buffer := fr.1
    formatDiag :=
      match fr.2 with
      | some e => ["error formatting the log entry: " ++ e]
      | none => []
    writerOut := if l.writer then some fr.1 else none
    stdoutOut := if l.stdOut && !(decide (LogLevel.toNat .Wrn < logLevel.toNat)) then some fr.1 else none
    stderrOut := if l.stdOut && decide (LogLevel.toNat .Wrn < logLevel.toNat) then some fr.1 else none
    hookCalls := (l.hooks logLevel).map (fun h => (h, now, logLevel, msg)) }

/-- `write` from `wlog.go`: the pipeline applied to the logger's own current
fields and field mapping. -/
def Logger.write (l : Logger) (logLevel : LogLevel) (msg : String) (now : Timestamp) :
    EmitResult :=
  writeWithFields l logLevel msg l.fields l.fieldMapping now

/-- `Debug` and `Debugf` from `wlog.go` after message construction: the only
emission methods with an early exit on the configured level. -/
def Logger.debug (l : Logger) (msg : String) (now : Timestamp) : Option EmitResult :=
  if LogLevel.toNat .Dbg < LogLevel.toNat l.logLevel then none
  else some (l.write .Dbg msg now)

/-- `Info` and `Infof` from `wlog.go` after message construction: emission is
unconditional. -/
def Logger.info (l : Logger) (msg : String) (now : Timestamp) : Option EmitResult :=
  some (l.write .Nfo msg now)

/-- `Warning` and `Warningf` from `wlog.go`: emission is unconditional. -/
def Logger.warning (l : Logger) (msg : String) (now : Timestamp) : Option EmitResult :=
  some (l.write .Wrn msg now)

/-- `Error` and `Errorf` from `wlog.go`: emission is unconditional. -/
def Logger.error (l : Logger) (msg : String) (now : Timestamp) : Option EmitResult :=
  some (l.write .Err msg now)

/-- `Fatal` and `Fatalf` from `wlog.go`: emission is unconditional (the
subsequent `os.Exit(1)` is a process side effect outside the model). -/
def Logger.fatal (l : Logger) (msg : String) (now : Timestamp) : Option EmitResult :=
  some (l.write .Ftl msg now)

/-- Dispatch of the leveled emission methods by level. -/
def Logger.emit (l : Logger) (logLevel : LogLevel) (msg : String) (now : Timestamp) :
    Option EmitResult :=
  match logLevel with
  | .Dbg => l.debug msg now
  | .Nfo => l.info msg now
  | .Wrn => l.warning msg now
  | .Err => l.error msg now
  | .Ftl => l.fatal msg now

/-- The check `strings.HasPrefix(v, "@")` from `SetFieldMapping`: the value
starts with the reserved at-sign character. -/
def startsWithReserved (v : String) : Bool :=
  match v.data with
  | [] => false
  | c :: _ => c == '@'

/-- The map construction inside `SetFieldMapping` in `wlog.go`: a fresh map,
the supplied custom mappings first (each value starting with the reserved
at-sign prefix is reported to the error stream, yet the assignment that
follows the report runs unconditionally), then every existing mapping on top.
Returns the new mapping and the diagnostics printed. -/
def setFieldMappingCore (old new : FieldMapping) : FieldMapping × List String :=
  let mapping := mergeInto [] new
  let diags := (new.filter (fun p => startsWithReserved p.2)).map
    (fun p => "value cannot be prefixed with @: " ++ p.2)
  (mergeInto mapping old, diags)

/-- `InstallHook` from `wlog.go`: append to the callback list of that level. -/
def Logger.installHook (l : Logger) (logLevel : LogLevel) (h : HookId) : Logger :=
  { l with hooks := fun lv => if lv = logLevel then l.hooks lv ++ [h] else l.hooks lv }

/-- The mutators of the `MutableLogger` interface, as state transformers. -/
inductive Op where
  | setLogLevel (logLevel : LogLevel)
  | setStdOut (b : Bool)
  | setWriter (w : Bool)
  | setFormatter (f : Formatter)
  | setFields (f : Option Fields)
  | setFieldMapping (m : FieldMapping)
  | installHook (logLevel : LogLevel) (h : HookId)

/-- Effect of one mutator call on the logger state (`wlog.go`): `SetFields`
replaces the field set wholesale (nil coalesced to empty), `SetFieldMapping`
installs the merged map built by `setFieldMappingCore`, `InstallHook` appends. -/
def applyOp (l : Logger) : Op → Logger
  | .setLogLevel lvl => { l with logLevel := lvl }
  | .setStdOut b => { l with stdOut := b }
  | .setWriter w => { l with writer := w }
  | .setFormatter f => { l with formatter := f }
  | .setFields f => { l with fields := f.getD [] }
  | .setFieldMapping m => { l with fieldMapping := (setFieldMappingCore l.fieldMapping m).1 }
  | .installHook lvl h => l.installHook lvl h

/-- A sequence of mutator calls. -/
def runOps (l : Logger) (ops : List Op) : Logger :=
  ops.foldl applyOp l

/-- The `scopedLogger` struct: a parent pointer plus its own resolved field
set. The parent pointer is modelled by passing the parent state current at
the moment of each method call. -/
structure ScopedLogger where
  fields : Fields

/-- `WithScope` from `wlog.go`: a fresh map, the parent fields copied in, the
supplied fields copied on top, handed to a new scoped logger. -/
def Logger.withScope (l : Logger) (fields : Fields) : ScopedLogger :=
  ⟨mergeInto (mergeInto [] l.fields) fields⟩

/-- `scopedLogger.GetFieldMapping`: the parent's field mapping, read through
the parent pointer at call time (no copy is taken at derivation time). -/
def ScopedLogger.getFieldMapping (_ : ScopedLogger) (parent : Logger) : FieldMapping :=
  parent.fieldMapping

/-- `scopedLogger.WithScope`: a fresh map, this scope's fields copied in, the
supplied fields copied on top, bound to the same root parent. -/
def ScopedLogger.withScope (s : ScopedLogger) (fields : Fields) : ScopedLogger :=
  ⟨mergeInto (mergeInto [] s.fields) fields⟩

/-- `scopedLogger.Info` and `Infof`: delegate to the parent pipeline with the
scope's own fields and the mapping read live from the parent. -/
def ScopedLogger.info (s : ScopedLogger) (parent : Logger) (msg : String) (now : Timestamp) :
    Option EmitResult :=
  some (writeWithFields parent .Nfo msg s.fields (s.getFieldMapping parent) now)

/-- `scopedLogger.Debug` and `Debugf`: early exit on the parent's level. -/
def ScopedLogger.debug (s : ScopedLogger) (parent : Logger) (msg : String) (now : Timestamp) :
    Option EmitResult :=
  if LogLevel.toNat .Dbg < LogLevel.toNat parent.logLevel then none
  else some (writeWithFields parent .Dbg msg s.fields (s.getFieldMapping parent) now)

/-- A sample timestamp used for concrete evaluations. -/
def sampleTime : Timestamp :=
  ⟨2019, 3, 10, 20, 57, 4, 280279000⟩

theorem hooks_runInstalls (installs : List (LogLevel × HookId)) :
    ∀ (st : Logger) (lvl : LogLevel),
      (runOps st (installs.map (fun p => Op.installHook p.1 p.2))).hooks lvl
        = st.hooks lvl ++ (installs.filter (fun p => p.1 == lvl)).map Prod.snd := by
  induction installs with
  | nil => intro st lvl; simp [runOps]
  | cons p rest ih =>
      intro st lvl
      simp only [List.map_cons, runOps, List.foldl_cons]
      have hstep := ih (applyOp st (.installHook p.1 p.2)) lvl
      rw [runOps] at hstep
      rw [hstep]
      by_cases he : p.1 = lvl
      · simp [applyOp, Logger.installHook, he, List.filter_cons, List.append_assoc]
      · have hne : ¬lvl = p.1 := fun e => he e.symm
        simp [applyOp, Logger.installHook, he, hne, List.filter_cons]

/-- Claim C6: per emission at level L, exactly the hooks installed for L fire,
each once, in installation order, with the timestamp, the level and the raw
unformatted message; hooks installed for any other level do not fire. -/
theorem hooks_fire_exactly_for_level (w : Bool) (lvl0 : LogLevel) (so : Bool)
    (installs : List (LogLevel × HookId)) (lvl : LogLevel) (msg : String) (fields : Fields)
    (fieldMapping : FieldMapping) (now : Timestamp) :
    (writeWithFields
        (runOps (newLogger w lvl0 so) (installs.map (fun p => Op.installHook p.1 p.2)))
        lvl msg fields fieldMapping now).hookCalls
      = ((installs.filter (fun p => p.1 == lvl)).map Prod.snd).map
          (fun h => (h, now, lvl, msg)) := by
  show (writeWithFields _ _ _ _ _ _).hookCalls = _
  rw [writeWithFields]
  simp only
  rw [hooks_runInstalls installs (newLogger w lvl0 so) lvl]
  simp [newLogger]

/-- Claim C9: every logger built by the constructor keeps the three standard
entries of the field mapping through any sequence of mutator calls;
`SetFieldMapping` copies the whole existing mapping in last, so the standard
bindings always survive. -/
theorem default_mapping_invariant (w : Bool) (lvl0 : LogLevel) (so : Bool) (ops : List Op) :
    findVal (runOps (newLogger w lvl0 so) ops).fieldMapping "level" = some "@l"
    ∧ findVal (runOps (newLogger w lvl0 so) ops).fieldMapping "timestamp" = some "@t"
    ∧ findVal (runOps (newLogger w lvl0 so) ops).fieldMapping "message" = some "@m" := by
  suffices hinv : ∀ (ops : List Op) (st : Logger), KeysNodup st.fieldMapping →
      findVal st.fieldMapping "level" = some "@l" →
      findVal st.fieldMapping "timestamp" = some "@t" →
      findVal st.fieldMapping "message" = some "@m" →
      KeysNodup (runOps st ops).fieldMapping ∧
        (findVal (runOps st ops).fieldMapping "level" = some "@l"
          ∧ findVal (runOps st ops).fieldMapping "timestamp" = some "@t"
          ∧ findVal (runOps st ops).fieldMapping "message" = some "@m") by
    exact (hinv ops (newLogger w lvl0 so)
      (show KeysNodup [("level", "@l"), ("timestamp", "@t"), ("message", "@m")] by decide)
      (show findVal [("level", "@l"), ("timestamp", "@t"), ("message", "@m")] "level"
        = some "@l" by decide)
      (show findVal [("level", "@l"), ("timestamp", "@t"), ("message", "@m")] "timestamp"
        = some "@t" by decide)
      (show findVal [("level", "@l"), ("timestamp", "@t"), ("message", "@m")] "message"
        = some "@m" by decide)).2
  intro ops
  induction ops with
  | nil => intro st h1 h2 h3 h4; exact ⟨h1, h2, h3, h4⟩
  | cons op rest ih =>
      intro st h1 h2 h3 h4
      have hstep : KeysNodup (applyOp st op).fieldMapping ∧
          (findVal (applyOp st op).fieldMapping "level" = some "@l"
            ∧ findVal (applyOp st op).fieldMapping "timestamp" = some "@t"
            ∧ findVal (applyOp st op).fieldMapping "message" = some "@m") := by
        cases op with
        | setFieldMapping m =>
            simp only [applyOp, setFieldMappingCore]
            constructor
            · exact keysNodup_mergeInto _ st.fieldMapping
                (keysNodup_mergeInto [] m (by simp [KeysNodup]))
            · refine ⟨?_, ?_, ?_⟩ <;>
                · rw [findVal_mergeInto _ st.fieldMapping _ h1]
                  simp [orFirst, h2, h3, h4]
        | setLogLevel lvl => exact ⟨h1, h2, h3, h4⟩
        | setStdOut b => exact ⟨h1, h2, h3, h4⟩
        | setWriter wr => exact ⟨h1, h2, h3, h4⟩
        | setFormatter f => exact ⟨h1, h2, h3, h4⟩
        | setFields f => exact ⟨h1, h2, h3, h4⟩
        | installHook lvl h => exact ⟨h1, h2, h3, h4⟩
      show KeysNodup (runOps (applyOp st op) rest).fieldMapping ∧ _
      exact ih (applyOp st op) hstep.1 hstep.2.1 hstep.2.2.1 hstep.2.2.2

/-- Claim C8: after `SetFieldMapping`, a key bound in both the existing and the
supplied mapping keeps its pre-existing value; a key bound only in the supplied
mapping is added. -/
theorem setFieldMapping_existing_precedence (old new : FieldMapping) (k : String)
    (h1 : KeysNodup old) (h2 : KeysNodup new) :
    findVal (setFieldMappingCore old new).1 k = orFirst (findVal old k) (findVal new k) := by
  show findVal (mergeInto (mergeInto [] new) old) k = _
  rw [findVal_mergeInto _ old k h1, findVal_mergeInto [] new k h2]
  cases hold : findVal old k <;> cases hnew : findVal new k <;> simp [orFirst, findVal]

/-- Witness for claim C8 at a concrete input: key a is bound in both maps and
keeps the existing value 1; key b comes only from the supplied map. -/
theorem setFieldMapping_existing_precedence_witness :
    (KeysNodup [("a", "1")] ∧ KeysNodup [("a", "2"), ("b", "3")])
    ∧ findVal (setFieldMappingCore [("a", "1")] [("a", "2"), ("b", "3")]).1 "a"
        = orFirst (findVal [("a", "1")] "a") (findVal [("a", "2"), ("b", "3")] "a")
    ∧ findVal (setFieldMappingCore [("a", "1")] [("a", "2"), ("b", "3")]).1 "b"
        = orFirst (findVal [("a", "1")] "b") (findVal [("a", "2"), ("b", "3")] "b") :=
  ⟨⟨by decide, by decide⟩,
    setFieldMapping_existing_precedence [("a", "1")] [("a", "2"), ("b", "3")] "a"
      (by decide) (by decide),
    setFieldMapping_existing_precedence [("a", "1")] [("a", "2"), ("b", "3")] "b"
      (by decide) (by decide)⟩

/-- Claim C2 is contradicted by the code: on a supplied entry whose short name
starts with the reserved at-sign, `SetFieldMapping` prints the diagnostic but
the assignment after the check still runs, so the entry is installed in the
active mapping anyway (the check is missing a skip of the entry). -/
theorem reserved_prefix_entry_still_installed :
    (setFieldMappingCore [("level", "@l"), ("timestamp", "@t"), ("message", "@m")]
        [("user", "@u")]).2
      = ["value cannot be prefixed with @: @u"]
    ∧ findVal (setFieldMappingCore [("level", "@l"), ("timestamp", "@t"), ("message", "@m")]
        [("user", "@u")]).1 "user" = some "@u" := by
  constructor
  · decide
  · decide

/-- Claim C1 is contradicted by the code: with the configured minimum level
set to Fatal, an Info emission still runs the full pipeline — the formatter
runs, the buffer is written to the writer sink and the hook installed for
Info fires. Only the Debug methods check the configured level; writeWithFields
and the Info, Warning, Error and Fatal methods have no level check (the
package test TestLogLevel expects suppression here and fails on this code). -/
theorem info_not_suppressed_below_minimum :
    ((runOps (newLogger true .Nfo false) [.setLogLevel .Ftl, .installHook .Nfo 7]).info
        "data" sampleTime).map (fun r => r.writerOut.isSome) = some true
    ∧ ((runOps (newLogger true .Nfo false) [.setLogLevel .Ftl, .installHook .Nfo 7]).info
        "data" sampleTime).map (fun r => r.hookCalls)
      = some [(7, sampleTime, .Nfo, "data")]
    ∧ LogLevel.toNat .Nfo < LogLevel.toNat .Ftl := by
  refine ⟨rfl, ?_, by decide⟩
  simp [runOps, applyOp, Logger.installHook, newLogger, Logger.info, Logger.write,
    writeWithFields]

/-- Claim C3 is contradicted by the code: `scopedLogger.GetFieldMapping`
returns the parent's field mapping through the parent pointer, so a
`SetFieldMapping` call on the parent after the scope is derived changes the
scope's effective mapping; under the compact JSON formatter the rendered key
of a custom field changes accordingly. -/
theorem scope_mapping_not_copied :
    (findVal
        ((newLogger true .Nfo false).withScope [] |>.getFieldMapping (newLogger true .Nfo false))
        "user" = none)
    ∧ (findVal
        ((newLogger true .Nfo false).withScope [] |>.getFieldMapping
          (applyOp (newLogger true .Nfo false) (.setFieldMapping [("user", "u")])))
        "user" = some "u")
    ∧ findVal
        (jsonOut true .Nfo "m" sampleTime [("user", "x")]
          ((newLogger true .Nfo false).withScope [] |>.getFieldMapping
            (newLogger true .Nfo false)))
        "user" = some "x"
    ∧ findVal
        (jsonOut true .Nfo "m" sampleTime [("user", "x")]
          ((newLogger true .Nfo false).withScope [] |>.getFieldMapping
            (applyOp (newLogger true .Nfo false) (.setFieldMapping [("user", "u")]))))
        "user" = none
    ∧ findVal
        (jsonOut true .Nfo "m" sampleTime [("user", "x")]
          ((newLogger true .Nfo false).withScope [] |>.getFieldMapping
            (applyOp (newLogger true .Nfo false) (.setFieldMapping [("user", "u")]))))
        "u" = some "x" := by
  refine ⟨by decide, by decide, ?_, ?_, ?_⟩ <;>
    simp [jsonOut, JSONFormatter.getKey, ScopedLogger.getFieldMapping, applyOp, newLogger,
      setFieldMappingCore, mergeInto, mapSet, findVal, List.filter]

/-- Claim C3, amended: the derived scope's field set is resolved at derivation
time from the parent's state at that moment and is unaffected by later
mutator calls on the parent, but the scope's effective field mapping is read
from the parent at every use, so it always equals the parent's current
mapping. -/
theorem scope_fields_copied_mapping_live (parent : Logger) (F : Fields) (ops : List Op)
    (msg : String) (now : Timestamp) (k : String)
    (h1 : KeysNodup parent.fields) (h2 : KeysNodup F) :
    ((parent.withScope F).getFieldMapping (runOps parent ops) = (runOps parent ops).fieldMapping)
    ∧ findVal (parent.withScope F).fields k = orFirst (findVal F k) (findVal parent.fields k)
    ∧ (parent.withScope F).info (runOps parent ops) msg now
      = some (writeWithFields (runOps parent ops) .Nfo msg (parent.withScope F).fields
          ((runOps parent ops).fieldMapping) now) := by
  refine ⟨rfl, ?_, rfl⟩
  show findVal (mergeInto (mergeInto [] parent.fields) F) k = _
  rw [findVal_mergeInto _ F k h2, findVal_mergeInto [] parent.fields k h1]
  cases findVal F k <;> cases findVal parent.fields k <;> rfl

/-- Witness for the amended claim C3 at a concrete input. -/
theorem scope_fields_copied_mapping_live_witness :
    (KeysNodup ((newLogger true .Nfo false).fields) ∧ KeysNodup ([("a", "1")] : Fields))
    ∧ (((newLogger true .Nfo false).withScope [("a", "1")]).getFieldMapping
          (runOps (newLogger true .Nfo false) [.setFieldMapping [("a", "sh")]])
        = (runOps (newLogger true .Nfo false) [.setFieldMapping [("a", "sh")]]).fieldMapping
      ∧ findVal ((newLogger true .Nfo false).withScope [("a", "1")]).fields "a"
        = orFirst (findVal [("a", "1")] "a") (findVal (newLogger true .Nfo false).fields "a")
      ∧ ((newLogger true .Nfo false).withScope [("a", "1")]).info
          (runOps (newLogger true .Nfo false) [.setFieldMapping [("a", "sh")]]) "m" sampleTime
        = some (writeWithFields
            (runOps (newLogger true .Nfo false) [.setFieldMapping [("a", "sh")]]) .Nfo "m"
            ((newLogger true .Nfo false).withScope [("a", "1")]).fields
            ((runOps (newLogger true .Nfo false) [.setFieldMapping [("a", "sh")]]).fieldMapping)
            sampleTime)) :=
  ⟨⟨by decide, by decide⟩,
    scope_fields_copied_mapping_live (newLogger true .Nfo false) [("a", "1")]
      [.setFieldMapping [("a", "sh")]] "m" sampleTime "a" (by decide) (by decide)⟩

/-- Claim C4: a derived scope's field set is the parent's field set merged
with the supplied fields, supplied values winning on key collision; deriving
from a scope is again a flat merge; and replacing the parent's field set via
`SetFields` afterwards leaves the derived scope's emissions untouched. -/
theorem scope_fields_merge_and_frame (parent : Logger) (F G : Fields) (g : Option Fields)
    (msg : String) (now : Timestamp) (k : String)
    (h1 : KeysNodup parent.fields) (h2 : KeysNodup F) (h3 : KeysNodup G) :
    findVal (parent.withScope F).fields k = orFirst (findVal F k) (findVal parent.fields k)
    ∧ findVal ((parent.withScope F).withScope G).fields k
      = orFirst (findVal G k) (findVal (parent.withScope F).fields k)
    ∧ (parent.withScope F).info (applyOp parent (.setFields g)) msg now
      = (parent.withScope F).info parent msg now
    ∧ (parent.withScope F).debug (applyOp parent (.setFields g)) msg now
      = (parent.withScope F).debug parent msg now := by
  refine ⟨?_, ?_, rfl, rfl⟩
  · show findVal (mergeInto (mergeInto [] parent.fields) F) k = _
    rw [findVal_mergeInto _ F k h2, findVal_mergeInto [] parent.fields k h1]
    cases findVal F k <;> cases findVal parent.fields k <;> rfl
  · have hnodup : KeysNodup (parent.withScope F).fields :=
      keysNodup_mergeInto _ F (keysNodup_mergeInto [] parent.fields (by decide))
    show findVal (mergeInto (mergeInto [] (parent.withScope F).fields) G) k = _
    rw [findVal_mergeInto _ G k h3,
      findVal_mergeInto [] (parent.withScope F).fields k hnodup]
    cases findVal G k <;> cases findVal (parent.withScope F).fields k <;> rfl

/-- Witness for claim C4 at a concrete input: the supplied value wins for the
shared key b, the parent value survives for key a, and a second derivation
merges again. -/
theorem scope_fields_merge_and_frame_witness :
    (KeysNodup ([("a", "1"), ("b", "2")] : Fields) ∧ KeysNodup ([("b", "3")] : Fields)
      ∧ KeysNodup ([("c", "4")] : Fields))
    ∧ (findVal ((runOps (newLogger true .Nfo false) [.setFields (some [("a", "1"), ("b", "2")])]).withScope
          [("b", "3")]).fields "b"
        = orFirst (findVal [("b", "3")] "b")
            (findVal (runOps (newLogger true .Nfo false)
              [.setFields (some [("a", "1"), ("b", "2")])]).fields "b")
      ∧ findVal (((runOps (newLogger true .Nfo false) [.setFields (some [("a", "1"), ("b", "2")])]).withScope
            [("b", "3")]).withScope [("c", "4")]).fields "b"
        = orFirst (findVal [("c", "4")] "b")
            (findVal ((runOps (newLogger true .Nfo false)
              [.setFields (some [("a", "1"), ("b", "2")])]).withScope [("b", "3")]).fields "b")
      ∧ ((runOps (newLogger true .Nfo false) [.setFields (some [("a", "1"), ("b", "2")])]).withScope
            [("b", "3")]).info
          (applyOp (runOps (newLogger true .Nfo false) [.setFields (some [("a", "1"), ("b", "2")])])
            (.setFields (some [("z", "9")]))) "m" sampleTime
        = ((runOps (newLogger true .Nfo false) [.setFields (some [("a", "1"), ("b", "2")])]).withScope
            [("b", "3")]).info
          (runOps (newLogger true .Nfo false) [.setFields (some [("a", "1"), ("b", "2")])]) "m" sampleTime
      ∧ ((runOps (newLogger true .Nfo false) [.setFields (some [("a", "1"), ("b", "2")])]).withScope
            [("b", "3")]).debug
          (applyOp (runOps (newLogger true .Nfo false) [.setFields (some [("a", "1"), ("b", "2")])])
            (.setFields (some [("z", "9")]))) "m" sampleTime
        = ((runOps (newLogger true .Nfo false) [.setFields (some [("a", "1"), ("b", "2")])]).withScope
            [("b", "3")]).debug
          (runOps (newLogger true .Nfo false) [.setFields (some [("a", "1"), ("b", "2")])]) "m" sampleTime) :=
  ⟨⟨by decide, by decide, by decide⟩,
    by
      have h := scope_fields_merge_and_frame
        (runOps (newLogger true .Nfo false) [.setFields (some [("a", "1"), ("b", "2")])])
        [("b", "3")] [("c", "4")] (some [("z", "9")]) "m" sampleTime "b"
        (by decide) (by decide) (by decide)
      exact h⟩

/-- Claim C5: in compact mode the JSON formatter renames the three built-in
keys to their one-character at-sign forms, renames a custom key through the
active mapping and leaves an unmapped custom key unchanged; outside compact
mode the built-in keys keep their full names and no custom key is renamed.
The Format-level conjunct shows each custom field lands in the output object
under exactly its renamed key. -/
theorem json_key_renaming (m : FieldMapping) (k kv : String) (logLevel : LogLevel)
    (msg : String) (ts : Timestamp) (v : Val) :
    JSONFormatter.getKey true "message" m false = "@m"
    ∧ JSONFormatter.getKey true "timestamp" m false = "@t"
    ∧ JSONFormatter.getKey true "level" m false = "@l"
    ∧ (findVal m k = some kv → JSONFormatter.getKey true k m true = kv)
    ∧ (findVal m k = none → JSONFormatter.getKey true k m true = k)
    ∧ JSONFormatter.getKey false k m true = k
    ∧ JSONFormatter.getKey false "message" m false = "message"
    ∧ JSONFormatter.getKey false "timestamp" m false = "timestamp"
    ∧ JSONFormatter.getKey false "level" m false = "level"
    ∧ findVal (jsonOut true logLevel msg ts [] m) "@m" = some msg
    ∧ findVal (jsonOut true logLevel msg ts [] m) "@t" = some (getTimestamp ts)
    ∧ findVal (jsonOut true logLevel msg ts [] m) "@l" = some logLevel.toStr
    ∧ findVal (jsonOut false logLevel msg ts [] m) "message" = some msg
    ∧ findVal (jsonOut false logLevel msg ts [] m) "timestamp" = some (getTimestamp ts)
    ∧ findVal (jsonOut false logLevel msg ts [] m) "level" = some logLevel.toStr
    ∧ (∀ compact : Bool,
        findVal (jsonOut compact logLevel msg ts [(k, v)] m)
          (JSONFormatter.getKey compact k m true) = some v) := by
  refine ⟨rfl, rfl, rfl, ?_, ?_, rfl, rfl, rfl, rfl, rfl, rfl, rfl, rfl, rfl, rfl, ?_⟩
  · intro h
    simp [JSONFormatter.getKey, h]
  · intro h
    simp [JSONFormatter.getKey, h]
  · intro compact
    show findVal (mapSet _ (JSONFormatter.getKey compact k m true) v)
        (JSONFormatter.getKey compact k m true) = some v
    exact findVal_mapSet_self _ _ v

/-- Witness for claim C5 at a concrete input: mapping with the single entry
name to n; the mapped custom key, an unmapped custom key, and the built-ins. -/
theorem json_key_renaming_witness :
    JSONFormatter.getKey true "message" [("name", "n")] false = "@m"
    ∧ JSONFormatter.getKey true "name" [("name", "n")] true = "n"
    ∧ JSONFormatter.getKey true "extra" [("name", "n")] true = "extra"
    ∧ JSONFormatter.getKey false "name" [("name", "n")] true = "name"
    ∧ findVal (jsonOut true .Nfo "hello" sampleTime [] [("name", "n")]) "@m" = some "hello"
    ∧ (∀ compact : Bool,
        findVal (jsonOut compact .Nfo "hello" sampleTime [("name", "bob")] [("name", "n")])
          (JSONFormatter.getKey compact "name" [("name", "n")] true) = some "bob") := by
  obtain ⟨g1, g2, g3, g4, g5, g6, g7, g8, g9, g10, g11, g12, g13, g14, g15, g16⟩ :=
    json_key_renaming [("name", "n")] "name" "n" .Nfo "hello" sampleTime "bob"
  obtain ⟨f1, f2, f3, f4, f5, f6, f7, f8, f9, f10, f11, f12, f13, f14, f15, f16⟩ :=
    json_key_renaming [("name", "n")] "extra" "n" .Nfo "hello" sampleTime "bob"
  exact ⟨g1, g4 (by decide), f5 (by decide), g6, g10, g16⟩

/-- Claim C10: the text formatter returns success for every input event and
every behavior of the underlying sink (write failures are reported to the
error stream inside `writeString` and swallowed), so with the text formatter
installed the formatting-failure branch of the write pipeline never runs. -/
theorem text_formatter_never_fails (wfail : String → Bool) (logLevel : LogLevel)
    (msg : String) (ts : Timestamp) (fields otherFields : Fields)
    (w : Bool) (lvl0 : LogLevel) (so : Bool) (hooks : LogLevel → List HookId)
    (fm fm' : FieldMapping) (now : Timestamp) :
    (TextFormatter.format wfail logLevel msg ts fields).2 = none
    ∧ (writeWithFields
        { writer := w, logLevel := lvl0, stdOut := so, hooks := hooks,
          fields := otherFields, formatter := .text, fieldMapping := fm }
        logLevel msg fields fm' now).formatDiag = [] := by
  constructor
  · rfl
  · rfl

/-- Claim C7: the text formatter output is exactly the fixed-width zero-padded
timestamp, a space, the three-letter level code with its trailing space, the
message, the bracketed field list (only when fields are present, entries
rendered as key, colon, space, value and joined by a comma and a space), and
a trailing newline unless the message already ends in one; under calendar
bounds each timestamp component has its fixed width, for 26 characters total. -/
theorem text_line_format (logLevel : LogLevel) (msg : String) (ts : Timestamp)
    (fields : Fields) (hy : ts.year < 10000) (hmo : ts.month < 100) (hd : ts.day < 100)
    (hh : ts.hour < 100) (hmi : ts.minute < 100) (hs : ts.sec < 100)
    (hns : ts.nanosec < 1000000000) :
    textFormat logLevel msg ts fields
      = zeroPad ts.year 4 ++ "-" ++ zeroPad ts.month 2 ++ "-" ++ zeroPad ts.day 2 ++ " "
        ++ zeroPad ts.hour 2 ++ ":" ++ zeroPad ts.minute 2 ++ ":" ++ zeroPad ts.sec 2 ++ ":"
        ++ zeroPad (ts.nanosec / 1000) 6
        ++ " " ++ levelCode logLevel ++ msg
        ++ (if 0 < fields.length then
              " [" ++ joinSep ", " (fields.map (fun p => p.1 ++ ": " ++ p.2)) ++ "]"
            else "")
        ++ (if msg.data = [] ∨ msg.data.getLast? ≠ some '\n' then "\n" else "")
    ∧ (getTimestamp ts).length = 26
    ∧ (zeroPad ts.year 4).length = 4 ∧ (zeroPad ts.month 2).length = 2
    ∧ (zeroPad ts.day 2).length = 2 ∧ (zeroPad ts.hour 2).length = 2
    ∧ (zeroPad ts.minute 2).length = 2 ∧ (zeroPad ts.sec 2).length = 2
    ∧ (zeroPad (ts.nanosec / 1000) 6).length = 6
    ∧ levelCode logLevel ∈ ["DBG ", "NFO ", "WRN ", "ERR ", "FTL "] := by
  have hy4 : ts.year < 10 ^ 4 := by norm_num; omega
  have hmo2 : ts.month < 10 ^ 2 := by norm_num; omega
  have hd2 : ts.day < 10 ^ 2 := by norm_num; omega
  have hh2 : ts.hour < 10 ^ 2 := by norm_num; omega
  have hmi2 : ts.minute < 10 ^ 2 := by norm_num; omega
  have hs2 : ts.sec < 10 ^ 2 := by norm_num; omega
  have hns6 : ts.nanosec / 1000 < 10 ^ 6 := by norm_num; omega
  have hly : (zeroPad ts.year 4).length = 4 := zeroPad_length _ _ (by omega) hy4
  have hlmo : (zeroPad ts.month 2).length = 2 := zeroPad_length _ _ (by omega) hmo2
  have hld : (zeroPad ts.day 2).length = 2 := zeroPad_length _ _ (by omega) hd2
  have hlh : (zeroPad ts.hour 2).length = 2 := zeroPad_length _ _ (by omega) hh2
  have hlmi : (zeroPad ts.minute 2).length = 2 := zeroPad_length _ _ (by omega) hmi2
  have hls : (zeroPad ts.sec 2).length = 2 := zeroPad_length _ _ (by omega) hs2
  have hlns : (zeroPad (ts.nanosec / 1000) 6).length = 6 := zeroPad_length _ _ (by omega) hns6
  refine ⟨?_, ?_, hly, hlmo, hld, hlh, hlmi, hls, hlns,
    by cases logLevel <;> simp [levelCode]⟩
  · rw [textFormat_eq]
    simp only [getTimestamp, itoa_eq_zeroPad, String.append_assoc]
  · rw [getTimestamp]
    simp only [itoa_eq_zeroPad, String.length_append]
    rw [hly, hlmo, hld, hlh, hlmi, hls, hlns]
    decide

/-- Witness for claim C7 at a concrete input. -/
theorem text_line_format_witness :
    (2020 < 10000 ∧ 1 < 100 ∧ 2 < 100 ∧ 3 < 100 ∧ 4 < 100 ∧ 5 < 100 ∧ 6000 < 1000000000)
    ∧ (textFormat .Nfo "m" ⟨2020, 1, 2, 3, 4, 5, 6000⟩ [("a", "b")]
        = zeroPad 2020 4 ++ "-" ++ zeroPad 1 2 ++ "-" ++ zeroPad 2 2 ++ " "
          ++ zeroPad 3 2 ++ ":" ++ zeroPad 4 2 ++ ":" ++ zeroPad 5 2 ++ ":"
          ++ zeroPad (6000 / 1000) 6
          ++ " " ++ levelCode .Nfo ++ "m"
          ++ (if 0 < ([("a", "b")] : Fields).length then
                " [" ++ joinSep ", " (([("a", "b")] : Fields).map (fun p => p.1 ++ ": " ++ p.2))
                  ++ "]"
              else "")
          ++ (if ("m" : String).data = [] ∨ ("m" : String).data.getLast? ≠ some '\n' then "\n"
              else "")
      ∧ (getTimestamp ⟨2020, 1, 2, 3, 4, 5, 6000⟩).length = 26) :=
  ⟨⟨by decide, by decide, by decide, by decide, by decide, by decide, by decide⟩,
    by
      have h := text_line_format .Nfo "m" ⟨2020, 1, 2, 3, 4, 5, 6000⟩ [("a", "b")]
        (by decide) (by decide) (by decide) (by decide) (by decide) (by decide) (by decide)
      exact ⟨h.1, h.2.1⟩⟩

end Wlog
